import Mathlib

/- Verification development for the nutri consumer web application.

   The development shallowly embeds the parts of the code base that the
   checked properties speak about:
   - the AI gateway and its mock persistence store (src/services/apiService.ts),
   - mock authentication (src/components/Auth.tsx, handleSubmit),
   - session restore at application start (src/App.tsx),
   - the personal-coach form validation (src/components/PersonalCoach.tsx).

   The external generative-AI call is nondeterministic, so each gateway
   operation takes the outcome of awaiting the call and JSON-parsing the
   returned text as an explicit argument (an Except value: a thrown error
   propagates, a parsed JSON value continues).  Date.now() is read twice in
   each success path of the source, so the two readings are two explicit Nat
   arguments.  The simulated sleep delays have no observable effect on the
   state and are dropped. -/

/-- JSON values, as produced by JSON.parse of the AI response text.  The
    fragment (strings, numbers, arrays, objects) covers every shape the
    declared response schemas can require; numbers are modelled as integers
    because no checked property inspects numeric contents. -/
inductive Json where
  | str (s : String)
  | num (n : Int)
  | arr (xs : List Json)
  | obj (fields : List (String × Json))

/-- User record (spec section 3; constructed in Auth.tsx as { name, email }). -/
structure User where
  name : String
  email : String
deriving DecidableEq

/-- User metrics exactly as held by the coach form state in
    PersonalCoach.tsx: every field is a free-form string. -/
structure UserMetrics where
  height : String
  weight : String
  age : String
  gender : String
  activityLevel : String
deriving DecidableEq

/-- Meal history record, fields as constructed in apiService.ts lines
    146-151.  The nutritional analysis is the parsed JSON value (the source
    performs no further validation of the parsed text). -/
structure MealHistoryItem where
  id : String
  timestamp : Nat
  nutritionalInfo : Json
  imageDataUrl : String

/-- Plan history record, fields as constructed in apiService.ts lines
    190-196. -/
structure PlanHistoryItem where
  id : String
  timestamp : Nat
  plan : Json
  metrics : UserMetrics
  goal : String

/-- The mock database shape (apiService.ts lines 7-10). -/
structure HistoryData where
  meals : List MealHistoryItem
  plans : List PlanHistoryItem

/-- analyzeMealImage (apiService.ts lines 122-155).  `resp` is the outcome of
    the awaited generateContent call followed by JSON.parse of the trimmed
    response text; a throw propagates to the caller and the store is left
    untouched.  `t1` is the Date.now() reading used for the id (line 147) and
    `t2` the separate Date.now() reading stored as the timestamp (line 148).
    On success the new item is prepended (unshift) to the meals collection. -/
def analyzeMealImage (db : HistoryData) (resp : Except String Json)
    (t1 t2 : Nat) (base64Image mimeType : String) :
    Except String Json × HistoryData :=
  match resp with
  | .error e => (.error e, db)
  | .ok analysis =>
    let newMealItem : MealHistoryItem :=
      { id := "meal-" ++ toString t1
        timestamp := t2
        nutritionalInfo := analysis
        imageDataUrl := "data:" ++ mimeType ++ ";base64," ++ base64Image }
    (.ok analysis, { db with meals := newMealItem :: db.meals })

/-- generatePersonalizedPlan (apiService.ts lines 160-200).  As above, `resp`
    is the outcome of the awaited call plus JSON.parse, `t1` the Date.now()
    reading used for the id (line 191) and `t2` the one stored as the
    timestamp (line 192).  The parsed plan is returned as-is and captured in
    the prepended history item together with the inputs. -/
def generatePersonalizedPlan (db : HistoryData) (resp : Except String Json)
    (t1 t2 : Nat) (metrics : UserMetrics) (goal : String) :
    Except String Json × HistoryData :=
  match resp with
  | .error e => (.error e, db)
  | .ok plan =>
    let newPlanItem : PlanHistoryItem :=
      { id := "plan-" ++ toString t1
        timestamp := t2
        plan := plan
        metrics := metrics
        goal := goal }
    (.ok plan, { db with plans := newPlanItem :: db.plans })

/-- Structural copy of a meal record: what JSON.stringify followed by
    JSON.parse rebuilds for one meals entry in getHistory. -/
def copyMealItem (it : MealHistoryItem) : MealHistoryItem :=
  { id := it.id
    timestamp := it.timestamp
    nutritionalInfo := it.nutritionalInfo
    imageDataUrl := it.imageDataUrl }

/-- Structural copy of a plan record, as rebuilt by getHistory. -/
def copyPlanItem (it : PlanHistoryItem) : PlanHistoryItem :=
  { id := it.id
    timestamp := it.timestamp
    plan := it.plan
    metrics := it.metrics
    goal := it.goal }

/-- getHistory (apiService.ts lines 205-209): returns
    JSON.parse(JSON.stringify(mockDb)), a structurally equal copy of the
    store.  The heap model further below accounts for the reference
    independence of the copy; at the level of pure values the round trip
    rebuilds each record field by field. -/
def getHistory (db : HistoryData) : HistoryData :=
  { meals := db.meals.map copyMealItem
    plans := db.plans.map copyPlanItem }

/-- clearHistory (apiService.ts lines 214-217): replaces the store with a
    fresh empty pair of collections.  Total: never fails. -/
def clearHistory (_db : HistoryData) : HistoryData :=
  { meals := [], plans := [] }

/-- Timestamps listed newest-first are non-increasing, i.e. non-decreasing
    relative to insertion order (the history is prepended-to). -/
def sortedDesc : List Nat → Bool
  | [] => true
  | [_] => true
  | a :: b :: rest => (b ≤ a) && sortedDesc (b :: rest)

/-- Claim C3: on a failed external call or parse, both gateway operations
    propagate the error and leave the history store completely unchanged:
    no meal or plan entry is written and no partial write occurs.  (The
    operations consume a single call outcome, so no retry is modelled or
    possible.) -/
theorem gateway_failure_leaves_store_unchanged (db : HistoryData) (e : String)
    (t1 t2 : Nat) (img mime g : String) (m : UserMetrics) :
    analyzeMealImage db (.error e) t1 t2 img mime = (.error e, db) ∧
    generatePersonalizedPlan db (.error e) t1 t2 m g = (.error e, db) :=
  ⟨rfl, rfl⟩

/-- Claim C4: clearHistory resets both collections to empty, so clearHistory
    followed by getHistory yields { meals := [], plans := [] } for every
    prior state, and clearHistory is idempotent.  (Both functions are total,
    so neither can fail.) -/
theorem clearHistory_idempotent_empty (db : HistoryData) :
    getHistory (clearHistory db) = { meals := [], plans := [] } ∧
    clearHistory (clearHistory db) = clearHistory db :=
  ⟨rfl, rfl⟩

/-- Claim C10: each successful gateway operation modifies only its own
    collection: analyzeMealImage leaves plans unchanged and
    generatePersonalizedPlan leaves meals unchanged. -/
theorem gateway_success_frame (db : HistoryData) (a j : Json) (t1 t2 : Nat)
    (img mime g : String) (m : UserMetrics) :
    (analyzeMealImage db (.ok a) t1 t2 img mime).2.plans = db.plans ∧
    (generatePersonalizedPlan db (.ok j) t1 t2 m g).2.meals = db.meals :=
  ⟨rfl, rfl⟩

/-- Claim C2 counterexample: the source reads Date.now() once for the id
    (line 147) and again for the timestamp (line 148).  With the two
    successive clock readings 5 and 6 (the clock may tick between the two
    calls), the single inserted item has id "meal-5" but timestamp 6, so the
    id suffix does not equal the stored timestamp as the claim asserts. -/
theorem analyzeMealImage_id_timestamp_cex :
    ((analyzeMealImage ⟨[], []⟩ (.ok (.str "ok")) 5 6 "QUJD" "image/png").2.meals.map
        (fun it => (it.id, it.timestamp))) = [("meal-5", 6)] ∧
    "meal-5" ≠ "meal-" ++ toString 6 :=
  ⟨rfl, by decide⟩

/-- Claim C2 (amended): on every successful analyzeMealImage call the meals
    history grows by exactly one entry, inserted at the front, whose id is
    "meal-" plus the first Date.now() reading, whose timestamp is the second
    Date.now() reading (the two coincide whenever the clock does not tick
    between the two calls, and only then is the id suffix the stored
    timestamp), and whose imageDataUrl is the data URL built from the
    mimeType and base64 payload; timestamps remain non-decreasing relative
    to insertion order provided the clock readings are monotone over the
    history. -/
theorem analyzeMealImage_success_shape (db : HistoryData) (a : Json)
    (t1 t2 : Nat) (img mime : String) (hclock : t1 ≤ t2) :
    (analyzeMealImage db (.ok a) t1 t2 img mime).1 = .ok a ∧
    (analyzeMealImage db (.ok a) t1 t2 img mime).2.meals =
      { id := "meal-" ++ toString t1, timestamp := t2, nutritionalInfo := a,
        imageDataUrl := "data:" ++ mime ++ ";base64," ++ img } :: db.meals ∧
    (t1 = t2 →
      ((analyzeMealImage db (.ok a) t1 t2 img mime).2.meals.head?.map
        (fun it => it.id == "meal-" ++ toString it.timestamp)) = some true) ∧
    (sortedDesc (db.meals.map (fun it => it.timestamp)) = true →
      (∀ it ∈ db.meals, it.timestamp ≤ t2) →
      sortedDesc ((analyzeMealImage db (.ok a) t1 t2 img mime).2.meals.map
        (fun it => it.timestamp)) = true) := by
  refine ⟨rfl, rfl, ?_, ?_⟩
  · intro h
    subst h
    simp [analyzeMealImage]
  · intro hs hall
    cases hml : db.meals with
    | nil => simp [analyzeMealImage, hml, sortedDesc]
    | cons x rest =>
      have hx : x.timestamp ≤ t2 := hall x (by simp [hml])
      have hs' : sortedDesc (x.timestamp :: rest.map (fun it => it.timestamp)) = true := by
        simpa [hml] using hs
      simp only [analyzeMealImage, hml]
      simp only [List.map_cons]
      cases hrm : rest.map (fun it => it.timestamp) with
      | nil => simp [sortedDesc, hx]
      | cons y ys =>
        rw [hrm] at hs'
        simp only [sortedDesc, Bool.and_eq_true, decide_eq_true_eq] at hs'
        simp [sortedDesc, hx, hs'.1, hs'.2]

/-- Witness for the amended C2 theorem at concrete inputs (clock readings
    both 7). -/
theorem analyzeMealImage_success_shape_witness :
    (analyzeMealImage ⟨[], []⟩ (.ok (.str "x")) 7 7 "QUJD" "image/png").2.meals =
      [{ id := "meal-" ++ toString 7, timestamp := 7, nutritionalInfo := .str "x",
         imageDataUrl := "data:image/png;base64,QUJD" }] :=
  (analyzeMealImage_success_shape ⟨[], []⟩ (.str "x") 7 7 "QUJD" "image/png"
    (by decide)).2.1

/-- Registration logic of handleSubmit (Auth.tsx lines 46-61): with empty
    name, email or password the submission fails; with an email already in
    the user database it fails with the already-exists message; otherwise
    the new { name, email } record is appended to the database (the password
    is never part of the stored record) and returned as the active session
    user together with the updated database. -/
def register (db : List User) (name email password : String) :
    Except String (List User × User) :=
  if name = "" ∨ email = "" ∨ password = "" then
    .error "Please fill all fields."
  else if db.any (fun u => u.email == email) then
    .error "An account with this email already exists."
  else
    .ok (db ++ [{ name := name, email := email }], { name := name, email := email })

/-- Login logic of handleSubmit (Auth.tsx lines 62-78): with empty email or
    password the submission fails; otherwise the first user with a matching
    email is returned, and if none exists the no-account message is
    surfaced.  The password is only tested for emptiness, never verified. -/
def login (db : List User) (email password : String) : Except String User :=
  if email = "" ∨ password = "" then
    .error "Please enter email and password."
  else
    match db.find? (fun u => u.email == email) with
    | some u => .ok u
    | none => .error "No account found with that email. Please register."

/-- Claim C6: Register fails exactly when a field is empty or a user with
    the same email already exists (and the duplicate case surfaces the
    already-exists message); otherwise it appends { name, email } and
    returns it as the session user.  Login fails exactly when email or
    password is empty or no user with that email exists (surfacing the
    no-account message); otherwise it returns the matching user. -/
theorem auth_register_login_conditions (db : List User) (n e p : String) :
    ((∃ msg, register db n e p = .error msg) ↔
      n = "" ∨ e = "" ∨ p = "" ∨ ∃ u ∈ db, u.email = e) ∧
    (n ≠ "" → e ≠ "" → p ≠ "" → (∀ u ∈ db, u.email ≠ e) →
      register db n e p =
        .ok (db ++ [{ name := n, email := e }], { name := n, email := e })) ∧
    (n ≠ "" → e ≠ "" → p ≠ "" → (∃ u ∈ db, u.email = e) →
      register db n e p = .error "An account with this email already exists.") ∧
    ((∃ msg, login db e p = .error msg) ↔
      e = "" ∨ p = "" ∨ ∀ u ∈ db, u.email ≠ e) ∧
    (e ≠ "" → p ≠ "" → (∀ u ∈ db, u.email ≠ e) →
      login db e p = .error "No account found with that email. Please register.") ∧
    (∀ u, e ≠ "" → p ≠ "" → db.find? (fun x => x.email == e) = some u →
      login db e p = .ok u) := by
  have hany : (db.any (fun u => u.email == e) = true) ↔ ∃ u ∈ db, u.email = e := by
    simp [List.any_eq_true]
  have hnone : (db.find? (fun u => u.email == e) = none) ↔ ∀ u ∈ db, u.email ≠ e := by
    simp [List.find?_eq_none]
  refine ⟨?_, ?_, ?_, ?_, ?_, ?_⟩
  · constructor
    · rintro ⟨msg, hmsg⟩
      by_cases h1 : n = "" ∨ e = "" ∨ p = ""
      · tauto
      · rw [register, if_neg h1] at hmsg
        by_cases h2 : db.any (fun u => u.email == e) = true
        · exact Or.inr (Or.inr (Or.inr (hany.mp h2)))
        · rw [if_neg h2] at hmsg
          exact absurd hmsg (by simp)
    · intro h
      by_cases h1 : n = "" ∨ e = "" ∨ p = ""
      · exact ⟨"Please fill all fields.", by rw [register, if_pos h1]⟩
      · have hdup : ∃ u ∈ db, u.email = e := by tauto
        exact ⟨"An account with this email already exists.",
          by rw [register, if_neg h1, if_pos (hany.mpr hdup)]⟩
  · intro hn he hp hfresh
    have h1 : ¬(n = "" ∨ e = "" ∨ p = "") := by tauto
    have h2 : ¬(db.any (fun u => u.email == e) = true) := by
      intro h; exact absurd (hany.mp h) (by push_neg; exact hfresh)
    rw [register, if_neg h1, if_neg h2]
  · intro hn he hp hdup
    have h1 : ¬(n = "" ∨ e = "" ∨ p = "") := by tauto
    rw [register, if_neg h1, if_pos (hany.mpr hdup)]
  · constructor
    · rintro ⟨msg, hmsg⟩
      by_cases h1 : e = "" ∨ p = ""
      · tauto
      · rw [login, if_neg h1] at hmsg
        cases hf : db.find? (fun u => u.email == e) with
        | some u => rw [hf] at hmsg; exact absurd hmsg (by simp)
        | none => exact Or.inr (Or.inr (hnone.mp hf))
    · intro h
      by_cases h1 : e = "" ∨ p = ""
      · exact ⟨"Please enter email and password.", by rw [login, if_pos h1]⟩
      · have hfresh : ∀ u ∈ db, u.email ≠ e := by tauto
        refine ⟨"No account found with that email. Please register.", ?_⟩
        rw [login, if_neg h1, hnone.mpr hfresh]
  · intro he hp hfresh
    have h1 : ¬(e = "" ∨ p = "") := by tauto
    rw [login, if_neg h1, hnone.mpr hfresh]
  · intro u he hp hfind
    have h1 : ¬(e = "" ∨ p = "") := by tauto
    rw [login, if_neg h1, hfind]

/-- Witness for C6 at concrete inputs: registering a fresh user in an empty
    database succeeds and yields the appended record. -/
theorem auth_register_login_conditions_witness :
    register [] "Alice" "alice@x.com" "pw1" =
      .ok ([{ name := "Alice", email := "alice@x.com" }],
        { name := "Alice", email := "alice@x.com" }) :=
  (auth_register_login_conditions [] "Alice" "alice@x.com" "pw1").2.1
    (by decide) (by decide) (by decide) (by intro u hu; cases hu)

/-- Claim C7: the outcome of Login is independent of the password value
    (for any two non-empty passwords it is identical); what Register stores
    is likewise independent of the password; and concretely, after
    registering Alice, logging in with an arbitrary non-matching password
    succeeds and returns the stored { name, email } record, which never
    contains the password. -/
theorem login_password_independent (db : List User) (e p1 p2 : String)
    (h1 : p1 ≠ "") (h2 : p2 ≠ "") :
    login db e p1 = login db e p2 ∧
    (∀ n em, register db n em p1 = register db n em p2) ∧
    (∀ db1 u1, register [] "Alice" "alice@x.com" "pw1" = .ok (db1, u1) →
      login db1 "alice@x.com" "anything" =
        .ok { name := "Alice", email := "alice@x.com" }) := by
  refine ⟨?_, ?_, ?_⟩
  · by_cases he : e = ""
    · simp [login, he]
    · have c1 : ¬(e = "" ∨ p1 = "") := by tauto
      have c2 : ¬(e = "" ∨ p2 = "") := by tauto
      rw [login, login, if_neg c1, if_neg c2]
  · intro n em
    by_cases hn : n = "" ∨ em = ""
    · rcases hn with hn | hn <;> simp [register, hn]
    · push_neg at hn
      have c1 : ¬(n = "" ∨ em = "" ∨ p1 = "") := by tauto
      have c2 : ¬(n = "" ∨ em = "" ∨ p2 = "") := by tauto
      rw [register, register, if_neg c1, if_neg c2]
  · intro db1 u1 hreg
    have : db1 = [{ name := "Alice", email := "alice@x.com" }] := by
      have : register [] "Alice" "alice@x.com" "pw1" =
          .ok ([{ name := "Alice", email := "alice@x.com" }],
            { name := "Alice", email := "alice@x.com" }) := rfl
      rw [this] at hreg
      exact (congrArg Prod.fst (Except.ok.inj hreg)).symm
    subst this
    rfl

/-- Witness for C7 at concrete inputs. -/
theorem login_password_independent_witness :
    login [{ name := "Alice", email := "alice@x.com" }] "alice@x.com" "aa" =
      login [{ name := "Alice", email := "alice@x.com" }] "alice@x.com" "bb" :=
  (login_password_independent [{ name := "Alice", email := "alice@x.com" }]
    "alice@x.com" "aa" "bb" (by decide) (by decide)).1

/-- Session restore at application start (App.tsx lines 15-25).  The
    persisted record under the "user" key is an optional string; JSON.parse
    of that string is abstracted as `parseUser` (some = parsed user, none =
    parse throws).  Returns the resulting active user together with the
    storage entry after the effect: on a parse failure the catch block
    removes the corrupted record (localStorage.removeItem) and the user
    stays logged out. -/
def appStart (parseUser : String → Option User) (stored : Option String) :
    Option User × Option String :=
  match stored with
  | none => (none, none)
  | some s =>
    match parseUser s with
    | some u => (some u, some s)
    | none => (none, none)

/-- Claim C8: at application start, a persisted record that parses becomes
    the active session user (and stays in storage); a record that fails to
    parse is removed from storage and the user is treated as logged out; no
    persisted record means logged out.  appStart is total, so no error
    escalates. -/
theorem appStart_session_restore (parseUser : String → Option User) (s : String) :
    (∀ u, parseUser s = some u → appStart parseUser (some s) = (some u, some s)) ∧
    (parseUser s = none → appStart parseUser (some s) = (none, none)) ∧
    appStart parseUser none = (none, none) := by
  refine ⟨?_, ?_, rfl⟩
  · intro u hu; simp [appStart, hu]
  · intro hn; simp [appStart, hn]

/-- A concrete stand-in for JSON.parse of the persisted user record, used
    only by the C8 witness: exactly one well-formed string parses. -/
def demoParseUser : String → Option User :=
  fun s => if s = "ok" then some { name := "Demo", email := "demo@x.com" } else none

/-- Witness for C8: a malformed persisted record yields the logged-out state
    with the record removed. -/
theorem appStart_session_restore_witness :
    appStart demoParseUser (some "garbage") = (none, none) :=
  (appStart_session_restore demoParseUser "garbage").2.1 (by decide)

/-- JS String.prototype.trim: leading and trailing whitespace removed
    (modelled over the character list; the core library trim is avoided
    because its substring machinery does not reduce in the kernel). -/
def trimJS (s : String) : String :=
  ⟨((s.data.dropWhile Char.isWhitespace).reverse.dropWhile Char.isWhitespace).reverse⟩

/-- Sign handling shared by the numeric parsers: an optional leading plus or
    minus sign, as in the JS Number grammar. -/
def splitSign : List Char → Bool × List Char
  | '-' :: r => (true, r)
  | '+' :: r => (false, r)
  | cs => (false, cs)

/-- Decimal digit run at the front of the input. -/
def takeDigits (cs : List Char) : List Char := cs.takeWhile Char.isDigit

/-- Value of a run of decimal digits. -/
def digitsToNat (ds : List Char) : Nat :=
  ds.foldl (fun acc c => acc * 10 + (c.toNat - 48)) 0

/-- JS parseInt(s, 10) (used on the age field, PersonalCoach.tsx line 44):
    skips leading whitespace, accepts an optional sign, reads the longest
    leading digit run and ignores the rest of the string; NaN (none) when no
    digit is found. -/
def parseIntJS (s : String) : Option Int :=
  let (neg, cs) := splitSign (s.data.dropWhile Char.isWhitespace)
  let ds := takeDigits cs
  if ds.isEmpty then none
  else some (if neg then -(digitsToNat ds : Int) else (digitsToNat ds : Int))

/-- JS parseFloat (used on height and weight, PersonalCoach.tsx lines 52 and
    60) on the sign/decimal core of its grammar: leading whitespace, optional
    sign, a digit run with an optional fractional part, trailing garbage
    ignored; NaN (none) when no digit occurs on either side of the point.
    The parsed value is the rational m / 10^k where k is the number of
    fractional digits; since the validation consumes the value only through
    its sign, the parser returns the signed scaled mantissa m, whose sign is
    the sign of the parsed value.  Exponent and Infinity forms are not
    modelled. -/
def parseFloatJS (s : String) : Option Int :=
  let (neg, cs) := splitSign (s.data.dropWhile Char.isWhitespace)
  let ds := takeDigits cs
  let fs := match cs.drop ds.length with
    | '.' :: r => takeDigits r
    | _ => []
  if ds.isEmpty ∧ fs.isEmpty then none
  else
    let m : Int := (digitsToNat ds * 10 ^ fs.length + digitsToNat fs : Nat)
    some (if neg then -m else m)

/-- Age block of validateForm (PersonalCoach.tsx lines 43-49). -/
def ageErrors (age : String) : List (String × String) :=
  if age = "" then [("age", "Age is required.")]
  else match parseIntJS age with
    | none => [("age", "Please enter a realistic age (1-120).")]
    | some n =>
      if n < 1 ∨ 120 < n then [("age", "Please enter a realistic age (1-120).")] else []

/-- Height/weight blocks of validateForm (PersonalCoach.tsx lines 51-65):
    required when blank after trimming, invalid when parseFloat is NaN or
    the parsed value is not positive. -/
def posNumberErrors (key value reqMsg invMsg : String) : List (String × String) :=
  if trimJS value = "" then [(key, reqMsg)]
  else match parseFloatJS value with
    | none => [(key, invMsg)]
    | some q => if q ≤ 0 then [(key, invMsg)] else []

/-- validateForm error accumulation (PersonalCoach.tsx lines 40-84): the six
    blocks run in source order and each contributes at most one error entry
    under its field key. -/
def validateFormErrors (m : UserMetrics) (goal : String) : List (String × String) :=
  ageErrors m.age ++
  posNumberErrors "height" m.height "Height is required."
    "Please enter a valid positive number for height." ++
  posNumberErrors "weight" m.weight "Weight is required."
    "Please enter a valid positive number for weight." ++
  (if m.gender = "" then [("gender", "Please select your gender.")] else []) ++
  (if m.activityLevel = "" then [("activityLevel", "Please select your activity level.")] else []) ++
  (if trimJS goal = "" then [("goal", "Please describe your goal.")] else [])

/-- validateForm returns whether no error was recorded
    (Object.keys(newErrors).length === 0 on line 83). -/
def validateForm (m : UserMetrics) (goal : String) : Bool :=
  (validateFormErrors m goal).isEmpty

/-- handleGeneratePlan (PersonalCoach.tsx lines 87-104): the plan request is
    issued, with exactly the current metrics and goal, only when validateForm
    returns true; otherwise no request is made. -/
def handleGeneratePlan (m : UserMetrics) (goal : String) :
    Option (UserMetrics × String) :=
  if validateForm m goal then some (m, goal) else none

/-- Claim-side integer reading of the age field: the whole string is an
    optionally signed run of decimal digits (used to state "age is an
    integer" as the claim words it). -/
def decimalInt? (s : String) : Option Int :=
  let (neg, cs) := splitSign s.data
  if cs.isEmpty || !(cs.all Char.isDigit) then none
  else some (if neg then -(digitsToNat cs : Int) else (digitsToNat cs : Int))

/-- The validation condition exactly as the claim words it (second,
    claim-side definition, for comparison with validateForm): age an
    integer between 1 and 120, height and weight non-empty and parsing to
    positive numbers, gender and activityLevel drawn from the enumerated
    values, goal non-empty. -/
def claimedValidation (m : UserMetrics) (goal : String) : Bool :=
  (match decimalInt? m.age with
   | some n => decide (1 ≤ n) && decide (n ≤ 120)
   | none => false) &&
  (!(trimJS m.height = "") &&
    match parseFloatJS m.height with
    | some q => decide (0 < q)
    | none => false) &&
  (!(trimJS m.weight = "") &&
    match parseFloatJS m.weight with
    | some q => decide (0 < q)
    | none => false) &&
  ["male", "female", "other"].contains m.gender &&
  ["sedentary", "light", "moderate", "active", "very_active"].contains m.activityLevel &&
  !(trimJS goal = "")

/-- Helper for the validateForm characterization: a conditional singleton is
    empty exactly when the condition fails. -/
theorem if_singleton_eq_nil (c : Prop) [Decidable c] (x : String × String) :
    (if c then [x] else ([] : List (String × String))) = [] ↔ ¬c := by
  split <;> simp [*]

/-- The age block succeeds exactly when the field is non-empty and its
    longest leading integer prefix lies in 1..120. -/
theorem ageErrors_eq_nil (age : String) :
    ageErrors age = [] ↔
      age ≠ "" ∧ ∃ n, parseIntJS age = some n ∧ 1 ≤ n ∧ n ≤ 120 := by
  unfold ageErrors
  split
  · next h => simp [h]
  · next h =>
    split
    · next hp => simp [h, hp]
    · next n hp =>
      split
      · next hr =>
        simp only [List.cons_ne_nil, false_iff]
        rintro ⟨-, n', hn', h1, h2⟩
        rw [hp] at hn'
        cases hn'
        omega
      · next hr =>
        push_neg at hr
        simp only [true_iff, ne_eq, h, not_false_iff, true_and]
        exact ⟨n, hp, by omega, by omega⟩

/-- A height/weight block succeeds exactly when the field is non-blank and
    parseFloat yields a positive value. -/
theorem posNumberErrors_eq_nil (key value reqMsg invMsg : String) :
    posNumberErrors key value reqMsg invMsg = [] ↔
      trimJS value ≠ "" ∧ ∃ q, parseFloatJS value = some q ∧ 0 < q := by
  unfold posNumberErrors
  split
  · next h => simp [h]
  · next h =>
    split
    · next hp => simp [h, hp]
    · next q hp =>
      split
      · next hr =>
        simp only [List.cons_ne_nil, false_iff]
        rintro ⟨-, q', hq', hpos⟩
        rw [hp] at hq'
        cases hq'
        omega
      · next hr =>
        push_neg at hr
        simp only [true_iff, ne_eq, h, not_false_iff, true_and]
        exact ⟨q, hp, hr⟩

/-- Claim C9 counterexample: validateForm only requires gender (and
    activityLevel) to be non-empty, not to be one of the enumerated values:
    with gender "banana" and all other fields valid, validateForm returns
    true while the claimed characterization is false, so the claimed
    "exactly when" equivalence fails on the code. -/
theorem validateForm_enumeration_cex :
    validateForm
      { height := "180", weight := "75", age := "30",
        gender := "banana", activityLevel := "moderate" } "lose weight" = true ∧
    claimedValidation
      { height := "180", weight := "75", age := "30",
        gender := "banana", activityLevel := "moderate" } "lose weight" = false :=
  ⟨by decide, by decide⟩

/-- Claim C9 (amended): validateForm returns true exactly when the age field
    is non-empty with its longest leading integer prefix (parseInt) in
    1..120, height and weight are non-blank and parse (parseFloat) to
    positive values, gender and activityLevel are non-empty (membership in
    the enumerated values is enforced only upstream by the select widgets,
    not by validateForm), and the goal is non-blank; and the plan request is
    issued, with exactly the validated metrics and goal, only when
    validateForm returns true. -/
theorem validateForm_characterization (m : UserMetrics) (g : String) :
    (validateForm m g = true ↔
      (m.age ≠ "" ∧ ∃ n, parseIntJS m.age = some n ∧ 1 ≤ n ∧ n ≤ 120) ∧
      (trimJS m.height ≠ "" ∧ ∃ q, parseFloatJS m.height = some q ∧ 0 < q) ∧
      (trimJS m.weight ≠ "" ∧ ∃ q, parseFloatJS m.weight = some q ∧ 0 < q) ∧
      m.gender ≠ "" ∧ m.activityLevel ≠ "" ∧ trimJS g ≠ "") ∧
    (∀ r, handleGeneratePlan m g = some r →
      validateForm m g = true ∧ r = (m, g)) := by
  constructor
  · rw [validateForm, List.isEmpty_iff, validateFormErrors]
    simp only [List.append_eq_nil]
    rw [ageErrors_eq_nil, posNumberErrors_eq_nil, posNumberErrors_eq_nil,
      if_singleton_eq_nil, if_singleton_eq_nil, if_singleton_eq_nil]
    tauto
  · intro r hr
    rw [handleGeneratePlan] at hr
    split at hr
    · next hv => exact ⟨hv, (Option.some.inj hr).symm⟩
    · cases hr

/-- Witness for the amended C9 theorem: a fully valid form issues the
    request with the given metrics and goal. -/
theorem validateForm_characterization_witness :
    validateForm
      { height := "180cm", weight := "75kg", age := "30",
        gender := "male", activityLevel := "moderate" } "lose 5kg" = true ∧
    (({ height := "180cm", weight := "75kg", age := "30",
        gender := "male", activityLevel := "moderate" } : UserMetrics),
      "lose 5kg") =
      ({ height := "180cm", weight := "75kg", age := "30",
         gender := "male", activityLevel := "moderate" }, "lose 5kg") :=
  (validateForm_characterization
    { height := "180cm", weight := "75kg", age := "30",
      gender := "male", activityLevel := "moderate" } "lose 5kg").2
    ({ height := "180cm", weight := "75kg", age := "30",
       gender := "male", activityLevel := "moderate" }, "lose 5kg") (by decide)

/-- The schema language used by the responseSchema configuration in
    apiService.ts: the Type enum members OBJECT / ARRAY / STRING / NUMBER,
    an items schema for arrays, and properties plus required keys for
    objects (descriptions carry no constraint and are dropped). -/
inductive Schema where
  | sString
  | sNumber
  | sArray (items : Schema)
  | sObject (properties : List (String × Schema)) (required : List String)

/-- Property schema for a key in an object schema (first match, as in a JS
    object literal where keys are unique). -/
def lookupProp (props : List (String × Schema)) (k : String) : Option Schema :=
  (props.find? (fun p => p.1 == k)).map (fun p => p.2)

/-- Field access on a parsed JSON object value. -/
def getField (j : Json) (k : String) : Option Json :=
  match j with
  | .obj fs => (fs.find? (fun f => f.1 == k)).map (fun f => f.2)
  | _ => none

/- Conformance of a JSON value to a schema, the guarantee the external
   service gives for a response generated under responseMimeType
   "application/json" with a responseSchema: strings and numbers match the
   scalar types, arrays match elementwise, and an object carries every
   required key while every present key is one of the declared properties
   and matches its property schema (structured output emits declared
   properties only).  The Nat argument is recursion fuel: it decreases on
   every call, any sufficiently large value yields the same verdict, and a
   conforming value forces it positive at each level. -/
mutual
/-- Schema conformance of one JSON value (see the comment above). -/
def matchesF : Nat → Schema → Json → Bool
  | 0, _, _ => false
  | _+1, .sString, .str _ => true
  | _+1, .sNumber, .num _ => true
  | fuel+1, .sArray it, .arr xs => matchesListF fuel it xs
  | fuel+1, .sObject props req, .obj fields =>
      req.all (fun k => fields.any (fun f => f.1 == k)) &&
      matchesFieldsF fuel props fields
  | _+1, _, _ => false

/-- Elementwise schema conformance of an array of JSON values. -/
def matchesListF : Nat → Schema → List Json → Bool
  | _, _, [] => true
  | 0, _, _ :: _ => false
  | fuel+1, s, x :: xs => matchesF fuel s x && matchesListF fuel s xs

/-- Fieldwise conformance of the fields of a JSON object to declared
    properties: each present key is declared and its value conforms. -/
def matchesFieldsF : Nat → List (String × Schema) → List (String × Json) → Bool
  | _, _, [] => true
  | 0, _, _ :: _ => false
  | fuel+1, props, (k, v) :: rest =>
      (match lookupProp props k with
       | some s => matchesF fuel s v
       | none => false) &&
      matchesFieldsF fuel props rest
end

/-- The seven weekday keys, in the order of apiService.ts lines 88-94. -/
def weekdays : List String :=
  ["Monday", "Tuesday", "Wednesday", "Thursday", "Friday", "Saturday", "Sunday"]

/-- Properties of mealObjectSchema (apiService.ts lines 67-76). -/
def mealObjectProperties : List (String × Schema) :=
  [("breakfast", .sString), ("lunch", .sString), ("dinner", .sString),
   ("snacks", .sString)]

/-- mealObjectSchema (apiService.ts lines 67-76): snacks is declared but not
    required. -/
def mealObjectSchema : Schema :=
  .sObject mealObjectProperties ["breakfast", "lunch", "dinner"]

/-- Properties of the mealPlan object schema (apiService.ts lines 87-95). -/
def mealPlanProperties : List (String × Schema) :=
  [("Monday", mealObjectSchema), ("Tuesday", mealObjectSchema),
   ("Wednesday", mealObjectSchema), ("Thursday", mealObjectSchema),
   ("Friday", mealObjectSchema), ("Saturday", mealObjectSchema),
   ("Sunday", mealObjectSchema)]

/-- Properties of the workoutPlan object schema (apiService.ts lines
    101-109): one string per weekday. -/
def workoutPlanProperties : List (String × Schema) :=
  [("Monday", .sString), ("Tuesday", .sString), ("Wednesday", .sString),
   ("Thursday", .sString), ("Friday", .sString), ("Saturday", .sString),
   ("Sunday", .sString)]

/-- personalizedPlanSchema (apiService.ts lines 78-115): summary string plus
    mealPlan and workoutPlan objects, each requiring all seven weekdays. -/
def personalizedPlanSchema : Schema :=
  .sObject
    [("summary", .sString),
     ("mealPlan", .sObject mealPlanProperties weekdays),
     ("workoutPlan", .sObject workoutPlanProperties weekdays)]
    ["summary", "mealPlan", "workoutPlan"]

/-- nutritionalInfoSchema (apiService.ts lines 17-65), transcribed for
    completeness. -/
def nutritionalInfoSchema : Schema :=
  .sObject
    [("foodItems", .sArray .sString),
     ("macros", .sObject
        [("calories", .sNumber), ("protein", .sNumber),
         ("carbohydrates", .sNumber), ("fat", .sNumber)]
        ["calories", "protein", "carbohydrates", "fat"]),
     ("vitamins", .sArray (.sObject [("name", .sString), ("amount", .sString)]
        ["name", "amount"])),
     ("minerals", .sArray (.sObject [("name", .sString), ("amount", .sString)]
        ["name", "amount"])),
     ("summary", .sString)]
    ["foodItems", "macros", "vitamins", "minerals", "summary"]

/-- A value conforming to the string schema is a string. -/
theorem matchesF_string_shape {n : Nat} {v : Json}
    (h : matchesF n .sString v = true) : ∃ s, v = .str s := by
  cases n with
  | zero => simp [matchesF] at h
  | succ m =>
    cases v with
    | str s => exact ⟨s, rfl⟩
    | num k => simp [matchesF] at h
    | arr xs => simp [matchesF] at h
    | obj fs => simp [matchesF] at h

/-- Every field of an object that conforms fieldwise has a declared property
    schema and conforms to it. -/
theorem matchesFieldsF_mem {n : Nat} {props : List (String × Schema)}
    {fields : List (String × Json)} {k : String} {v : Json}
    (h : matchesFieldsF n props fields = true) (hm : (k, v) ∈ fields) :
    ∃ s m, lookupProp props k = some s ∧ matchesF m s v = true := by
  induction fields generalizing n with
  | nil => cases hm
  | cons f rest ih =>
    obtain ⟨k1, v1⟩ := f
    cases n with
    | zero => simp [matchesFieldsF] at h
    | succ m =>
      rw [matchesFieldsF, Bool.and_eq_true] at h
      rcases List.mem_cons.mp hm with heq | hmem
      · obtain ⟨rfl, rfl⟩ := Prod.mk.injEq k v k1 v1 ▸ heq
        cases hlp : lookupProp props k with
        | none =>
          rw [hlp] at h
          simp at h
        | some s =>
          have h1 := h.1
          rw [hlp] at h1
          exact ⟨s, m, rfl, h1⟩
      · exact ih h.2 hmem

/-- Elimination for a conforming object: the value is an object, every
    required key is present, and the fields conform fieldwise. -/
theorem matchesF_obj_shape {n : Nat} {props : List (String × Schema)}
    {req : List String} {j : Json}
    (h : matchesF n (.sObject props req) j = true) :
    ∃ m fields, n = m + 1 ∧ j = .obj fields ∧
      (∀ k ∈ req, ∃ f ∈ fields, f.1 = k) ∧
      matchesFieldsF m props fields = true := by
  cases n with
  | zero => simp [matchesF] at h
  | succ m =>
    cases j with
    | str s => simp [matchesF] at h
    | num k => simp [matchesF] at h
    | arr xs => simp [matchesF] at h
    | obj fields =>
      rw [matchesF, Bool.and_eq_true] at h
      refine ⟨m, fields, rfl, rfl, ?_, h.2⟩
      intro k hk
      have hany := List.all_eq_true.mp h.1 k hk
      obtain ⟨f, hf, hfk⟩ := List.any_eq_true.mp hany
      exact ⟨f, hf, by simpa using hfk⟩

/-- Every required key of a conforming object is present with a value that
    conforms to the declared property schema. -/
theorem matchesF_obj_getField {n : Nat} {props : List (String × Schema)}
    {req : List String} {j : Json} {k : String}
    (h : matchesF n (.sObject props req) j = true) (hk : k ∈ req) :
    ∃ v s m, getField j k = some v ∧ lookupProp props k = some s ∧
      matchesF m s v = true := by
  obtain ⟨m, fields, -, rfl, hreq, hfs⟩ := matchesF_obj_shape h
  obtain ⟨f, hf, hfk⟩ := hreq k hk
  have hsome : (fields.find? (fun f => f.1 == k)).isSome := by
    rw [List.find?_isSome]
    exact ⟨f, hf, by simp [hfk]⟩
  obtain ⟨f0, hf0⟩ := Option.isSome_iff_exists.mp hsome
  have hf0mem := List.mem_of_find?_eq_some hf0
  obtain ⟨k0, v0⟩ := f0
  have hk0 : k0 = k := by simpa using List.find?_some hf0
  subst hk0
  obtain ⟨s, m', hlp, hmv⟩ := matchesFieldsF_mem hfs hf0mem
  exact ⟨v0, s, m', by simp [getField, hf0], hlp, hmv⟩

/-- Every present key of a conforming object is a declared property key. -/
theorem matchesF_obj_keys {n : Nat} {props : List (String × Schema)}
    {req : List String} {fields : List (String × Json)}
    (h : matchesF n (.sObject props req) (.obj fields) = true) :
    ∀ f ∈ fields, ∃ s, lookupProp props f.1 = some s := by
  obtain ⟨m, fields2, -, heq, -, hfs⟩ := matchesF_obj_shape h
  rw [Json.obj.injEq] at heq
  subst heq
  intro f hf
  obtain ⟨k0, v0⟩ := f
  obtain ⟨s, m', hlp, -⟩ := matchesFieldsF_mem hfs hf
  exact ⟨s, hlp⟩

/-- A found property comes from the property list with the looked-up key. -/
theorem lookupProp_mem {props : List (String × Schema)} {k : String} {s : Schema}
    (h : lookupProp props k = some s) : ∃ p ∈ props, p.1 = k ∧ p.2 = s := by
  unfold lookupProp at h
  cases hf : props.find? (fun p => p.1 == k) with
  | none => rw [hf] at h; cases h
  | some p =>
    rw [hf] at h
    refine ⟨p, List.mem_of_find?_eq_some hf, by simpa using List.find?_some hf, ?_⟩
    simpa using h

/-- Every weekday key maps to the meal object schema in the mealPlan
    properties. -/
theorem mealPlanProperties_lookup :
    ∀ d ∈ weekdays, lookupProp mealPlanProperties d = some mealObjectSchema := by
  intro d hd
  simp only [weekdays, List.mem_cons, List.not_mem_nil, or_false] at hd
  rcases hd with rfl | rfl | rfl | rfl | rfl | rfl | rfl <;> rfl

/-- Every weekday key maps to the string schema in the workoutPlan
    properties. -/
theorem workoutPlanProperties_lookup :
    ∀ d ∈ weekdays, lookupProp workoutPlanProperties d = some .sString := by
  intro d hd
  simp only [weekdays, List.mem_cons, List.not_mem_nil, or_false] at hd
  rcases hd with rfl | rfl | rfl | rfl | rfl | rfl | rfl <;> rfl

/-- Only weekday keys are declared in the mealPlan properties. -/
theorem mealPlanProperties_keys {k : String} {s : Schema}
    (h : lookupProp mealPlanProperties k = some s) : k ∈ weekdays := by
  obtain ⟨p, hp, hpk, -⟩ := lookupProp_mem h
  subst hpk
  fin_cases hp <;> decide

/-- Only weekday keys are declared in the workoutPlan properties. -/
theorem workoutPlanProperties_keys {k : String} {s : Schema}
    (h : lookupProp workoutPlanProperties k = some s) : k ∈ weekdays := by
  obtain ⟨p, hp, hpk, -⟩ := lookupProp_mem h
  subst hpk
  fin_cases hp <;> decide

/-- The meal object schema declares exactly the keys breakfast, lunch,
    dinner and snacks, each with the string schema. -/
theorem mealObjectProperties_shape {k : String} {s : Schema}
    (h : lookupProp mealObjectProperties k = some s) :
    (k = "breakfast" ∨ k = "lunch" ∨ k = "dinner" ∨ k = "snacks") ∧
    s = .sString := by
  obtain ⟨p, hp, hpk, hps⟩ := lookupProp_mem h
  subst hpk
  subst hps
  fin_cases hp <;> simp

/-- A day entry of the kind the claim describes: breakfast, lunch and dinner
    string fields are present, and every present field is one of breakfast,
    lunch, dinner or the optional snacks, with a string value. -/
def MealEntryShape (e : Json) : Prop :=
  (∃ s, getField e "breakfast" = some (.str s)) ∧
  (∃ s, getField e "lunch" = some (.str s)) ∧
  (∃ s, getField e "dinner" = some (.str s)) ∧
  ∀ fs, e = .obj fs → ∀ f ∈ fs,
    (f.1 = "breakfast" ∨ f.1 = "lunch" ∨ f.1 = "dinner" ∨ f.1 = "snacks") ∧
    ∃ s, f.2 = .str s

/-- A JSON string value. -/
def StringValued (j : Json) : Prop := ∃ s, j = .str s

/-- A weekday-keyed object of the kind the claim describes: each of the
    seven weekday keys is present with an entry of the given kind, and no
    key beyond the seven weekdays occurs. -/
def WeekdayMap (j : Json) (entry : Json → Prop) : Prop :=
  (∀ d ∈ weekdays, ∃ e, getField j d = some e ∧ entry e) ∧
  ∀ fs, j = .obj fs → ∀ f ∈ fs, f.1 ∈ weekdays

/-- A value conforming to mealObjectSchema has the claimed day-entry shape. -/
theorem mealObjectSchema_shape {n : Nat} {e : Json}
    (h : matchesF n mealObjectSchema e = true) : MealEntryShape e := by
  rw [mealObjectSchema] at h
  have hday : ∀ k, k ∈ ["breakfast", "lunch", "dinner"] →
      ∃ s, getField e k = some (.str s) := by
    intro k hk
    obtain ⟨v, s, m, hget, hlp, hmv⟩ := matchesF_obj_getField h hk
    obtain ⟨-, rfl⟩ := mealObjectProperties_shape hlp
    obtain ⟨str, rfl⟩ := matchesF_string_shape hmv
    exact ⟨str, hget⟩
  refine ⟨hday "breakfast" (by simp), hday "lunch" (by simp),
    hday "dinner" (by simp), ?_⟩
  rintro fs rfl f hf
  obtain ⟨m, fields2, -, heq, -, hfs⟩ := matchesF_obj_shape h
  rw [Json.obj.injEq] at heq
  subst heq
  obtain ⟨k0, v0⟩ := f
  obtain ⟨s, m', hlp, hmv⟩ := matchesFieldsF_mem hfs hf
  obtain ⟨hk, rfl⟩ := mealObjectProperties_shape hlp
  obtain ⟨str, rfl⟩ := matchesF_string_shape hmv
  exact ⟨hk, str, rfl⟩

/-- Claim C1: for every metrics and goal input, when the external service
    returns a JSON value conforming to personalizedPlanSchema (the contract
    requested through responseSchema), the plan returned by
    generatePersonalizedPlan is that value, and it carries a mealPlan object
    and a workoutPlan object each holding exactly the seven weekday keys
    Monday through Sunday, no more and no fewer, with every mealPlan entry
    holding breakfast, lunch and dinner strings plus at most an optional
    snacks string, and every workoutPlan entry holding a string. -/
theorem generatePersonalizedPlan_weekday_shape
    (db : HistoryData) (j : Json) (t1 t2 : Nat) (m : UserMetrics) (g : String)
    (n : Nat) (hmatch : matchesF n personalizedPlanSchema j = true) :
    (generatePersonalizedPlan db (.ok j) t1 t2 m g).1 = .ok j ∧
    (∃ mp, getField j "mealPlan" = some mp ∧ WeekdayMap mp MealEntryShape) ∧
    (∃ wp, getField j "workoutPlan" = some wp ∧ WeekdayMap wp StringValued) := by
  rw [personalizedPlanSchema] at hmatch
  refine ⟨rfl, ?_, ?_⟩
  · obtain ⟨mp, s, m1, hget, hlp, hmp⟩ :=
      matchesF_obj_getField hmatch (by simp : "mealPlan" ∈ _)
    have hcomp : lookupProp
        [("summary", Schema.sString),
         ("mealPlan", Schema.sObject mealPlanProperties weekdays),
         ("workoutPlan", Schema.sObject workoutPlanProperties weekdays)]
        "mealPlan" = some (Schema.sObject mealPlanProperties weekdays) := rfl
    rw [hcomp, Option.some.injEq] at hlp
    subst hlp
    refine ⟨mp, hget, ?_, ?_⟩
    · intro d hd
      obtain ⟨e, s2, m2, hget2, hlp2, hme⟩ := matchesF_obj_getField hmp hd
      rw [mealPlanProperties_lookup d hd, Option.some.injEq] at hlp2
      subst hlp2
      exact ⟨e, hget2, mealObjectSchema_shape hme⟩
    · rintro fs rfl f hf
      obtain ⟨s3, hlp3⟩ := matchesF_obj_keys hmp f hf
      exact mealPlanProperties_keys hlp3
  · obtain ⟨wp, s, m1, hget, hlp, hwp⟩ :=
      matchesF_obj_getField hmatch (by simp : "workoutPlan" ∈ _)
    have hcomp : lookupProp
        [("summary", Schema.sString),
         ("mealPlan", Schema.sObject mealPlanProperties weekdays),
         ("workoutPlan", Schema.sObject workoutPlanProperties weekdays)]
        "workoutPlan" = some (Schema.sObject workoutPlanProperties weekdays) := rfl
    rw [hcomp, Option.some.injEq] at hlp
    subst hlp
    refine ⟨wp, hget, ?_, ?_⟩
    · intro d hd
      obtain ⟨e, s2, m2, hget2, hlp2, hme⟩ := matchesF_obj_getField hwp hd
      rw [workoutPlanProperties_lookup d hd, Option.some.injEq] at hlp2
      subst hlp2
      obtain ⟨str, rfl⟩ := matchesF_string_shape hme
      exact ⟨.str str, hget2, str, rfl⟩
    · rintro fs rfl f hf
      obtain ⟨s3, hlp3⟩ := matchesF_obj_keys hwp f hf
      exact workoutPlanProperties_keys hlp3

/-- A concrete meal-plan day entry used by the C1 witness. -/
def sampleMealEntry : Json :=
  .obj [("breakfast", .str "oats"), ("lunch", .str "salad"),
        ("dinner", .str "fish"), ("snacks", .str "nuts")]

/-- A concrete schema-conforming plan response used by the C1 witness. -/
def samplePlanJson : Json :=
  .obj
    [("summary", .str "A steady week."),
     ("mealPlan", .obj
        [("Monday", sampleMealEntry), ("Tuesday", sampleMealEntry),
         ("Wednesday", sampleMealEntry), ("Thursday", sampleMealEntry),
         ("Friday", sampleMealEntry), ("Saturday", sampleMealEntry),
         ("Sunday", sampleMealEntry)]),
     ("workoutPlan", .obj
        [("Monday", .str "run"), ("Tuesday", .str "lift"),
         ("Wednesday", .str "rest"), ("Thursday", .str "swim"),
         ("Friday", .str "lift"), ("Saturday", .str "hike"),
         ("Sunday", .str "rest")])]

/-- Witness for C1: a concrete conforming response is returned as the plan. -/
theorem generatePersonalizedPlan_weekday_shape_witness :
    (generatePersonalizedPlan ⟨[], []⟩ (.ok samplePlanJson) 1 1
      { height := "180cm", weight := "75kg", age := "30", gender := "male",
        activityLevel := "moderate" } "lose 5kg").1 = .ok samplePlanJson :=
  (generatePersonalizedPlan_weekday_shape ⟨[], []⟩ samplePlanJson 1 1
    { height := "180cm", weight := "75kg", age := "30", gender := "male",
      activityLevel := "moderate" } "lose 5kg" 100 (by decide)).1

/- Heap model for claim C5.  getHistory returns
   JSON.parse(JSON.stringify(mockDb)): a deep copy of the store living at
   fresh heap addresses.  To state that the copy is structurally equal yet
   independently mutable, JS runtime values are modelled as heap cells:
   strings and numbers are leaves, arrays and objects hold the addresses of
   their components.  Allocation uses the next free address; mutation
   overwrites the cell at an address; readBack recovers the pure JSON tree
   reachable from an address.  All recursion is fuel-indexed (the fuel
   strictly decreases on every call, so any large enough fuel agrees). -/

/-- One mutable JS runtime value on the heap. -/
inductive HVal where
  | hstr (s : String)
  | hnum (n : Int)
  | harr (elems : List Nat)
  | hobj (fields : List (String × Nat))
deriving DecidableEq

/-- A heap: allocated cells plus the next free address. -/
structure Heap where
  cells : List (Nat × HVal)
  next : Nat
deriving DecidableEq

/-- Cell stored at an address, if any. -/
def hlookup (h : Heap) (a : Nat) : Option HVal :=
  (h.cells.find? (fun c => c.1 == a)).map (fun c => c.2)

/-- Heap well-formedness: every allocated address is below the next free
    address. -/
def hwfb (h : Heap) : Bool := h.cells.all (fun c => c.1 < h.next)

/-- Allocate a fresh cell; returns the new heap and the fresh address. -/
def halloc (h : Heap) (v : HVal) : Heap × Nat :=
  ({ cells := (h.next, v) :: h.cells, next := h.next + 1 }, h.next)

/-- Mutate the cell at an address in place (a JS assignment through a
    reference). -/
def hupdate (h : Heap) (b : Nat) (v : HVal) : Heap :=
  { h with cells := h.cells.map (fun c => if c.1 == b then (b, v) else c) }

mutual
/-- Pure JSON tree reachable from an address (fuel-bounded). -/
def readBack : Nat → Heap → Nat → Option Json
  | 0, _, _ => none
  | fuel+1, h, a =>
    match hlookup h a with
    | none => none
    | some (.hstr s) => some (.str s)
    | some (.hnum n) => some (.num n)
    | some (.harr addrs) => (readBackList fuel h addrs).map Json.arr
    | some (.hobj fs) => (readBackFields fuel h fs).map Json.obj

/-- readBack over a list of element addresses. -/
def readBackList : Nat → Heap → List Nat → Option (List Json)
  | _, _, [] => some []
  | 0, _, _ :: _ => none
  | fuel+1, h, a :: rest =>
    match readBack fuel h a, readBackList fuel h rest with
    | some j, some js => some (j :: js)
    | _, _ => none

/-- readBack over a list of object fields. -/
def readBackFields : Nat → Heap → List (String × Nat) →
    Option (List (String × Json))
  | _, _, [] => some []
  | 0, _, _ :: _ => none
  | fuel+1, h, (k, a) :: rest =>
    match readBack fuel h a, readBackFields fuel h rest with
    | some j, some js => some ((k, j) :: js)
    | _, _ => none
end

mutual
/-- Deep copy of the value at an address onto fresh cells: the heap effect
    of JSON.parse(JSON.stringify(-)) applied to that value.  Returns the
    grown heap and the root address of the copy. -/
def copyVal : Nat → Heap → Nat → Option (Heap × Nat)
  | 0, _, _ => none
  | fuel+1, h, a =>
    match hlookup h a with
    | none => none
    | some (.hstr s) => some (halloc h (.hstr s))
    | some (.hnum n) => some (halloc h (.hnum n))
    | some (.harr addrs) =>
      match copyList fuel h addrs with
      | some (h1, addrs1) => some (halloc h1 (.harr addrs1))
      | none => none
    | some (.hobj fs) =>
      match copyFields fuel h fs with
      | some (h1, fs1) => some (halloc h1 (.hobj fs1))
      | none => none

/-- Deep copy of a list of element addresses, threading the heap. -/
def copyList : Nat → Heap → List Nat → Option (Heap × List Nat)
  | _, h, [] => some (h, [])
  | 0, _, _ :: _ => none
  | fuel+1, h, a :: rest =>
    match copyVal fuel h a with
    | some (h1, a1) =>
      match copyList fuel h1 rest with
      | some (h2, rest1) => some (h2, a1 :: rest1)
      | none => none
    | none => none

/-- Deep copy of a list of object fields, threading the heap. -/
def copyFields : Nat → Heap → List (String × Nat) →
    Option (Heap × List (String × Nat))
  | _, h, [] => some (h, [])
  | 0, _, _ :: _ => none
  | fuel+1, h, (k, a) :: rest =>
    match copyVal fuel h a with
    | some (h1, a1) =>
      match copyFields fuel h1 rest with
      | some (h2, rest1) => some (h2, (k, a1) :: rest1)
      | none => none
    | none => none
end

/-- getHistory at the heap level (apiService.ts line 208): the returned value
    is a deep copy, onto fresh cells, of the store rooted at `root`. -/
def getHistoryHeap (fuel : Nat) (h : Heap) (root : Nat) : Option (Heap × Nat) :=
  copyVal fuel h root

/-- One heap extends another: every allocated cell is preserved. -/
def HeapExtends (g h : Heap) : Prop :=
  ∀ a v, hlookup h a = some v → hlookup g a = some v

/-- In a well-formed heap every allocated address is below next. -/
theorem hlookup_some_lt {h : Heap} {a : Nat} {v : HVal}
    (hwf : hwfb h = true) (hl : hlookup h a = some v) : a < h.next := by
  unfold hlookup at hl
  cases hf : h.cells.find? (fun c => c.1 == a) with
  | none => rw [hf] at hl; cases hl
  | some c =>
    have hmem := List.mem_of_find?_eq_some hf
    have hca : c.1 = a := by simpa using List.find?_some hf
    have hlt := List.all_eq_true.mp hwf c hmem
    simp only [decide_eq_true_eq] at hlt
    omega

/-- The fresh cell is readable at the fresh address. -/
theorem hlookup_halloc_self (h : Heap) (v : HVal) :
    hlookup (halloc h v).1 h.next = some v := by
  simp [halloc, hlookup]

/-- Allocation does not disturb addresses below next. -/
theorem hlookup_halloc_lt {h : Heap} {b : Nat} (v : HVal) (hb : b < h.next) :
    hlookup (halloc h v).1 b = hlookup h b := by
  have hne : (h.next == b) = false := by
    simp only [beq_eq_false_iff_ne, ne_eq]
    omega
  simp [halloc, hlookup, List.find?_cons, hne]

/-- Allocation preserves well-formedness. -/
theorem hwfb_halloc {h : Heap} (v : HVal) (hwf : hwfb h = true) :
    hwfb (halloc h v).1 = true := by
  rw [hwfb, List.all_eq_true]
  rw [hwfb, List.all_eq_true] at hwf
  intro c hc
  simp only [halloc, List.mem_cons] at hc
  simp only [halloc]
  rcases hc with rfl | hc
  · simp
  · have := hwf c hc
    simp only [decide_eq_true_eq] at *
    omega

/-- Updating one address leaves every other address unchanged. -/
theorem hlookup_hupdate_ne {h : Heap} {b : Nat} (v : HVal) {a : Nat}
    (hne : a ≠ b) : hlookup (hupdate h b v) a = hlookup h a := by
  unfold hlookup hupdate
  simp only []
  rw [List.find?_map]
  have hpred : ((fun c => c.1 == a) ∘
      (fun c : Nat × HVal => if c.1 == b then (b, v) else c)) =
      (fun c : Nat × HVal => c.1 == a) := by
    funext c
    by_cases hcb : c.1 = b
    · simp [Function.comp, hcb]
    · simp [Function.comp, hcb]
  rw [hpred]
  cases hf : h.cells.find? (fun c => c.1 == a) with
  | none => rfl
  | some c =>
    have hca : c.1 = a := by simpa using List.find?_some hf
    show some ((if c.1 == b then (b, v) else c).2) = some c.2
    rw [if_neg (show ¬((c.1 == b) = true) by simp only [beq_iff_eq]; omega)]

/-- Preservation below next plus well-formedness yields heap extension. -/
theorem heapExtends_of_pres {g h : Heap} (hwf : hwfb h = true)
    (pres : ∀ b, b < h.next → hlookup g b = hlookup h b) : HeapExtends g h := by
  intro a v hl
  rw [pres a (hlookup_some_lt hwf hl)]
  exact hl

/-- Allocation extends a well-formed heap. -/
theorem heapExtends_halloc {h : Heap} (v : HVal) (hwf : hwfb h = true) :
    HeapExtends (halloc h v).1 h :=
  heapExtends_of_pres hwf (fun b hb => hlookup_halloc_lt v hb)

/-- readBack is preserved under heap extension: a successfully read value
    stays readable, unchanged, in any heap that keeps every existing cell
    (proved simultaneously for values, element lists and field lists by
    induction on the fuel). -/
theorem readBack_mono_all (n : Nat) :
    (∀ g h a j, HeapExtends g h → readBack n h a = some j →
      readBack n g a = some j) ∧
    (∀ g h addrs js, HeapExtends g h → readBackList n h addrs = some js →
      readBackList n g addrs = some js) ∧
    (∀ g h fs fjs, HeapExtends g h → readBackFields n h fs = some fjs →
      readBackFields n g fs = some fjs) := by
  induction n with
  | zero =>
    refine ⟨?_, ?_, ?_⟩
    · intro g h a j hx hr
      simp [readBack] at hr
    · intro g h addrs js hx hr
      cases addrs with
      | nil => simpa [readBackList] using hr
      | cons a rest => simp [readBackList] at hr
    · intro g h fs fjs hx hr
      cases fs with
      | nil => simpa [readBackFields] using hr
      | cons f rest =>
        obtain ⟨k, a⟩ := f
        simp [readBackFields] at hr
  | succ m ih =>
    obtain ⟨ihV, ihL, ihF⟩ := ih
    refine ⟨?_, ?_, ?_⟩
    · intro g h a j hx hr
      rw [readBack] at hr ⊢
      cases hl : hlookup h a with
      | none => rw [hl] at hr; cases hr
      | some v =>
        rw [hl] at hr
        rw [hx a v hl]
        cases v with
        | hstr s => exact hr
        | hnum k => exact hr
        | harr addrs =>
          have hr' : Option.map Json.arr (readBackList m h addrs) = some j := hr
          show Option.map Json.arr (readBackList m g addrs) = some j
          cases hrl : readBackList m h addrs with
          | none => rw [hrl] at hr'; cases hr'
          | some js =>
            rw [hrl] at hr'
            rw [ihL g h addrs js hx hrl]
            exact hr'
        | hobj fs =>
          have hr' : Option.map Json.obj (readBackFields m h fs) = some j := hr
          show Option.map Json.obj (readBackFields m g fs) = some j
          cases hrf : readBackFields m h fs with
          | none => rw [hrf] at hr'; cases hr'
          | some fjs =>
            rw [hrf] at hr'
            rw [ihF g h fs fjs hx hrf]
            exact hr'
    · intro g h addrs js hx hr
      cases addrs with
      | nil => simpa [readBackList] using hr
      | cons a rest =>
        rw [readBackList] at hr ⊢
        cases hra : readBack m h a with
        | none => rw [hra] at hr; cases hr
        | some j0 =>
          cases hrr : readBackList m h rest with
          | none => rw [hra, hrr] at hr; cases hr
          | some js0 =>
            rw [hra, hrr] at hr
            rw [ihV g h a j0 hx hra, ihL g h rest js0 hx hrr]
            exact hr
    · intro g h fs fjs hx hr
      cases fs with
      | nil => simpa [readBackFields] using hr
      | cons f rest =>
        obtain ⟨k, a⟩ := f
        rw [readBackFields] at hr ⊢
        cases hra : readBack m h a with
        | none => rw [hra] at hr; cases hr
        | some j0 =>
          cases hrr : readBackFields m h rest with
          | none => rw [hra, hrr] at hr; cases hr
          | some js0 =>
            rw [hra, hrr] at hr
            rw [ihV g h a j0 hx hra, ihF g h rest js0 hx hrr]
            exact hr

/-- Effect of a deep copy on the heap: cells below the old next address are
    untouched, well-formedness is preserved, the next address only grows,
    and the root of the copy is a fresh address (proved simultaneously for
    values, element lists and field lists by induction on the fuel). -/
theorem copy_spec_all (n : Nat) :
    (∀ h a h1 a1, hwfb h = true → copyVal n h a = some (h1, a1) →
      (∀ b, b < h.next → hlookup h1 b = hlookup h b) ∧ hwfb h1 = true ∧
      h.next ≤ h1.next ∧ h.next ≤ a1 ∧ a1 < h1.next) ∧
    (∀ h addrs h1 addrs1, hwfb h = true → copyList n h addrs = some (h1, addrs1) →
      (∀ b, b < h.next → hlookup h1 b = hlookup h b) ∧ hwfb h1 = true ∧
      h.next ≤ h1.next) ∧
    (∀ h fs h1 fs1, hwfb h = true → copyFields n h fs = some (h1, fs1) →
      (∀ b, b < h.next → hlookup h1 b = hlookup h b) ∧ hwfb h1 = true ∧
      h.next ≤ h1.next) := by
  induction n with
  | zero =>
    refine ⟨?_, ?_, ?_⟩
    · intro h a h1 a1 hwf hcv
      simp [copyVal] at hcv
    · intro h addrs h1 addrs1 hwf hcl
      cases addrs with
      | nil =>
        have hcl' : some (h, ([] : List Nat)) = some (h1, addrs1) := hcl
        injection hcl' with heq
        have hh1 := congrArg Prod.fst heq
        have ha1 := congrArg Prod.snd heq
        subst hh1
        exact ⟨fun b hb => rfl, hwf, le_refl _⟩
      | cons a rest => simp [copyList] at hcl
    · intro h fs h1 fs1 hwf hcf
      cases fs with
      | nil =>
        have hcf' : some (h, ([] : List (String × Nat))) = some (h1, fs1) := hcf
        injection hcf' with heq
        have hh1 := congrArg Prod.fst heq
        subst hh1
        exact ⟨fun b hb => rfl, hwf, le_refl _⟩
      | cons f rest =>
        obtain ⟨k, a⟩ := f
        simp [copyFields] at hcf
  | succ m ih =>
    obtain ⟨ihV, ihL, ihF⟩ := ih
    refine ⟨?_, ?_, ?_⟩
    · intro h a h1 a1 hwf hcv
      rw [copyVal] at hcv
      cases hl : hlookup h a with
      | none => rw [hl] at hcv; cases hcv
      | some v =>
        rw [hl] at hcv
        cases v with
        | hstr s =>
          have hcv' : some (halloc h (HVal.hstr s)) = some (h1, a1) := hcv
          injection hcv' with heq
          have hh1 := congrArg Prod.fst heq
          have ha1 := congrArg Prod.snd heq
          subst hh1
          subst ha1
          refine ⟨fun b hb => hlookup_halloc_lt _ hb, hwfb_halloc _ hwf, ?_, ?_, ?_⟩
          · simp only [halloc]
            omega
          · simp only [halloc]
            omega
          · simp only [halloc]
            omega
        | hnum k =>
          have hcv' : some (halloc h (HVal.hnum k)) = some (h1, a1) := hcv
          injection hcv' with heq
          have hh1 := congrArg Prod.fst heq
          have ha1 := congrArg Prod.snd heq
          subst hh1
          subst ha1
          refine ⟨fun b hb => hlookup_halloc_lt _ hb, hwfb_halloc _ hwf, ?_, ?_, ?_⟩
          · simp only [halloc]
            omega
          · simp only [halloc]
            omega
          · simp only [halloc]
            omega
        | harr addrs =>
          have hcv' : (match copyList m h addrs with
              | some (h1, addrs1) => some (halloc h1 (HVal.harr addrs1))
              | none => none) = some (h1, a1) := hcv
          cases hcl : copyList m h addrs with
          | none => rw [hcl] at hcv'; cases hcv'
          | some p =>
            obtain ⟨hL, addrs1⟩ := p
            rw [hcl] at hcv'
            injection hcv' with heq
            have hh1 := congrArg Prod.fst heq
            have ha1 := congrArg Prod.snd heq
            subst hh1
            subst ha1
            obtain ⟨presL, hwfL, hnextL⟩ := ihL h addrs hL addrs1 hwf hcl
            refine ⟨?_, hwfb_halloc _ hwfL, ?_, ?_, ?_⟩
            · intro b hb
              rw [hlookup_halloc_lt _ (lt_of_lt_of_le hb hnextL), presL b hb]
            · simp only [halloc]
              omega
            · simp only [halloc]
              omega
            · simp only [halloc]
              omega
        | hobj fs =>
          have hcv' : (match copyFields m h fs with
              | some (h1, fs1) => some (halloc h1 (HVal.hobj fs1))
              | none => none) = some (h1, a1) := hcv
          cases hcf : copyFields m h fs with
          | none => rw [hcf] at hcv'; cases hcv'
          | some p =>
            obtain ⟨hF, fs1⟩ := p
            rw [hcf] at hcv'
            injection hcv' with heq
            have hh1 := congrArg Prod.fst heq
            have ha1 := congrArg Prod.snd heq
            subst hh1
            subst ha1
            obtain ⟨presF, hwfF, hnextF⟩ := ihF h fs hF fs1 hwf hcf
            refine ⟨?_, hwfb_halloc _ hwfF, ?_, ?_, ?_⟩
            · intro b hb
              rw [hlookup_halloc_lt _ (lt_of_lt_of_le hb hnextF), presF b hb]
            · simp only [halloc]
              omega
            · simp only [halloc]
              omega
            · simp only [halloc]
              omega
    · intro h addrs h1 addrs1 hwf hcl
      cases addrs with
      | nil =>
        have hcl' : some (h, ([] : List Nat)) = some (h1, addrs1) := hcl
        injection hcl' with heq
        have hh1 := congrArg Prod.fst heq
        subst hh1
        exact ⟨fun b hb => rfl, hwf, le_refl _⟩
      | cons a rest =>
        rw [copyList] at hcl
        cases hca : copyVal m h a with
        | none => rw [hca] at hcl; cases hcl
        | some p =>
          obtain ⟨hA, aA⟩ := p
          rw [hca] at hcl
          have hcl' : (match copyList m hA rest with
              | some (h2, rest1) => some (h2, aA :: rest1)
              | none => none) = some (h1, addrs1) := hcl
          cases hcr : copyList m hA rest with
          | none => rw [hcr] at hcl'; cases hcl'
          | some q =>
            obtain ⟨h2, rest1⟩ := q
            rw [hcr] at hcl'
            injection hcl' with heq
            have hh1 := congrArg Prod.fst heq
            subst hh1
            obtain ⟨presA, hwfA, hnA, hA1, hA2⟩ := ihV h a hA aA hwf hca
            obtain ⟨presR, hwfR, hnR⟩ := ihL hA rest h2 rest1 hwfA hcr
            refine ⟨?_, hwfR, le_trans hnA hnR⟩
            intro b hb
            rw [presR b (lt_of_lt_of_le hb hnA), presA b hb]
    · intro h fs h1 fs1 hwf hcf
      cases fs with
      | nil =>
        have hcf' : some (h, ([] : List (String × Nat))) = some (h1, fs1) := hcf
        injection hcf' with heq
        have hh1 := congrArg Prod.fst heq
        subst hh1
        exact ⟨fun b hb => rfl, hwf, le_refl _⟩
      | cons f rest =>
        obtain ⟨k, a⟩ := f
        rw [copyFields] at hcf
        cases hca : copyVal m h a with
        | none => rw [hca] at hcf; cases hcf
        | some p =>
          obtain ⟨hA, aA⟩ := p
          rw [hca] at hcf
          have hcf' : (match copyFields m hA rest with
              | some (h2, rest1) => some (h2, (k, aA) :: rest1)
              | none => none) = some (h1, fs1) := hcf
          cases hcr : copyFields m hA rest with
          | none => rw [hcr] at hcf'; cases hcf'
          | some q =>
            obtain ⟨h2, rest1⟩ := q
            rw [hcr] at hcf'
            injection hcf' with heq
            have hh1 := congrArg Prod.fst heq
            subst hh1
            obtain ⟨presA, hwfA, hnA, hA1, hA2⟩ := ihV h a hA aA hwf hca
            obtain ⟨presR, hwfR, hnR⟩ := ihF hA rest h2 rest1 hwfA hcr
            refine ⟨?_, hwfR, le_trans hnA hnR⟩
            intro b hb
            rw [presR b (lt_of_lt_of_le hb hnA), presA b hb]

/-- Structural equality of the deep copy: whatever tree was readable from
    the source address is readable, unchanged, from the root of the copy
    (proved simultaneously for values, element lists and field lists by
    induction on the fuel). -/
theorem copy_correct_all (n : Nat) :
    (∀ h a h1 a1 j, hwfb h = true → copyVal n h a = some (h1, a1) →
      readBack n h a = some j → readBack n h1 a1 = some j) ∧
    (∀ h addrs h1 addrs1 js, hwfb h = true →
      copyList n h addrs = some (h1, addrs1) →
      readBackList n h addrs = some js → readBackList n h1 addrs1 = some js) ∧
    (∀ h fs h1 fs1 fjs, hwfb h = true → copyFields n h fs = some (h1, fs1) →
      readBackFields n h fs = some fjs → readBackFields n h1 fs1 = some fjs) := by
  induction n with
  | zero =>
    refine ⟨?_, ?_, ?_⟩
    · intro h a h1 a1 j hwf hcv hr
      simp [copyVal] at hcv
    · intro h addrs h1 addrs1 js hwf hcl hr
      cases addrs with
      | nil =>
        have hcl' : some (h, ([] : List Nat)) = some (h1, addrs1) := hcl
        injection hcl' with heq
        have ha1 := congrArg Prod.snd heq
        subst ha1
        have hr' : some ([] : List Json) = some js := hr
        injection hr' with hjs
      | cons a rest => simp [copyList] at hcl
    · intro h fs h1 fs1 fjs hwf hcf hr
      cases fs with
      | nil =>
        have hcf' : some (h, ([] : List (String × Nat))) = some (h1, fs1) := hcf
        injection hcf' with heq
        have ha1 := congrArg Prod.snd heq
        subst ha1
        have hr' : some ([] : List (String × Json)) = some fjs := hr
        injection hr' with hjs
      | cons f rest =>
        obtain ⟨k, a⟩ := f
        simp [copyFields] at hcf
  | succ m ih =>
    obtain ⟨ihV, ihL, ihF⟩ := ih
    refine ⟨?_, ?_, ?_⟩
    · intro h a h1 a1 j hwf hcv hr
      rw [copyVal] at hcv
      rw [readBack] at hr
      cases hl : hlookup h a with
      | none => rw [hl] at hr; cases hr
      | some v =>
        rw [hl] at hcv
        rw [hl] at hr
        cases v with
        | hstr s =>
          have hcv' : some (halloc h (HVal.hstr s)) = some (h1, a1) := hcv
          injection hcv' with heq
          have hh1 := congrArg Prod.fst heq
          have ha1 := congrArg Prod.snd heq
          subst hh1
          subst ha1
          have hr' : some (Json.str s) = some j := hr
          rw [readBack]
          have hself : hlookup (halloc h (HVal.hstr s)).1
              (halloc h (HVal.hstr s)).2 = some (HVal.hstr s) :=
            hlookup_halloc_self h _
          rw [hself]
          exact hr'
        | hnum k =>
          have hcv' : some (halloc h (HVal.hnum k)) = some (h1, a1) := hcv
          injection hcv' with heq
          have hh1 := congrArg Prod.fst heq
          have ha1 := congrArg Prod.snd heq
          subst hh1
          subst ha1
          have hr' : some (Json.num k) = some j := hr
          rw [readBack]
          have hself : hlookup (halloc h (HVal.hnum k)).1
              (halloc h (HVal.hnum k)).2 = some (HVal.hnum k) :=
            hlookup_halloc_self h _
          rw [hself]
          exact hr'
        | harr addrs =>
          have hcv' : (match copyList m h addrs with
              | some (h1, addrs1) => some (halloc h1 (HVal.harr addrs1))
              | none => none) = some (h1, a1) := hcv
          have hr' : Option.map Json.arr (readBackList m h addrs) = some j := hr
          cases hcl : copyList m h addrs with
          | none => rw [hcl] at hcv'; cases hcv'
          | some p =>
            obtain ⟨hL, addrs1⟩ := p
            rw [hcl] at hcv'
            injection hcv' with heq
            have hh1 := congrArg Prod.fst heq
            have ha1 := congrArg Prod.snd heq
            subst hh1
            subst ha1
            cases hrl : readBackList m h addrs with
            | none => rw [hrl] at hr'; cases hr'
            | some js =>
              rw [hrl] at hr'
              have hjs := ihL h addrs hL addrs1 js hwf hcl hrl
              obtain ⟨-, hwfL, -⟩ := (copy_spec_all m).2.1 h addrs hL addrs1 hwf hcl
              have hx := heapExtends_halloc (HVal.harr addrs1) hwfL
              have hjs1 := (readBack_mono_all m).2.1 _ hL addrs1 js hx hjs
              rw [readBack]
              have hself : hlookup (halloc hL (HVal.harr addrs1)).1
                  (halloc hL (HVal.harr addrs1)).2 = some (HVal.harr addrs1) :=
                hlookup_halloc_self hL _
              rw [hself]
              show Option.map Json.arr
                (readBackList m (halloc hL (HVal.harr addrs1)).1 addrs1) = some j
              rw [hjs1]
              exact hr'
        | hobj fs =>
          have hcv' : (match copyFields m h fs with
              | some (h1, fs1) => some (halloc h1 (HVal.hobj fs1))
              | none => none) = some (h1, a1) := hcv
          have hr' : Option.map Json.obj (readBackFields m h fs) = some j := hr
          cases hcf : copyFields m h fs with
          | none => rw [hcf] at hcv'; cases hcv'
          | some p =>
            obtain ⟨hF, fs1⟩ := p
            rw [hcf] at hcv'
            injection hcv' with heq
            have hh1 := congrArg Prod.fst heq
            have ha1 := congrArg Prod.snd heq
            subst hh1
            subst ha1
            cases hrf : readBackFields m h fs with
            | none => rw [hrf] at hr'; cases hr'
            | some fjs =>
              rw [hrf] at hr'
              have hjs := ihF h fs hF fs1 fjs hwf hcf hrf
              obtain ⟨-, hwfF, -⟩ := (copy_spec_all m).2.2 h fs hF fs1 hwf hcf
              have hx := heapExtends_halloc (HVal.hobj fs1) hwfF
              have hjs1 := (readBack_mono_all m).2.2 _ hF fs1 fjs hx hjs
              rw [readBack]
              have hself : hlookup (halloc hF (HVal.hobj fs1)).1
                  (halloc hF (HVal.hobj fs1)).2 = some (HVal.hobj fs1) :=
                hlookup_halloc_self hF _
              rw [hself]
              show Option.map Json.obj
                (readBackFields m (halloc hF (HVal.hobj fs1)).1 fs1) = some j
              rw [hjs1]
              exact hr'
    · intro h addrs h1 addrs1 js hwf hcl hr
      cases addrs with
      | nil =>
        have hcl' : some (h, ([] : List Nat)) = some (h1, addrs1) := hcl
        injection hcl' with heq
        have ha1 := congrArg Prod.snd heq
        subst ha1
        have hr' : some ([] : List Json) = some js := hr
        injection hr' with hjs
      | cons a rest =>
        rw [copyList] at hcl
        rw [readBackList] at hr
        cases hca : copyVal m h a with
        | none => rw [hca] at hcl; cases hcl
        | some p =>
          obtain ⟨hA, aA⟩ := p
          rw [hca] at hcl
          have hcl' : (match copyList m hA rest with
              | some (h2, rest1) => some (h2, aA :: rest1)
              | none => none) = some (h1, addrs1) := hcl
          cases hcr : copyList m hA rest with
          | none => rw [hcr] at hcl'; cases hcl'
          | some q =>
            obtain ⟨h2, rest1⟩ := q
            rw [hcr] at hcl'
            injection hcl' with heq
            have hh1 := congrArg Prod.fst heq
            have ha1 := congrArg Prod.snd heq
            subst hh1
            subst ha1
            cases hra : readBack m h a with
            | none => rw [hra] at hr; cases hr
            | some j0 =>
              cases hrr : readBackList m h rest with
              | none => rw [hra, hrr] at hr; cases hr
              | some js0 =>
                rw [hra, hrr] at hr
                have hr' : some (j0 :: js0) = some js := hr
                obtain ⟨presA, hwfA, hnA, -, -⟩ :=
                  (copy_spec_all m).1 h a hA aA hwf hca
                obtain ⟨presR, hwfR, hnR⟩ :=
                  (copy_spec_all m).2.1 hA rest h2 rest1 hwfA hcr
                have hxA : HeapExtends hA h := heapExtends_of_pres hwf presA
                have hx2 : HeapExtends h2 hA := heapExtends_of_pres hwfA presR
                have hj0A := ihV h a hA aA j0 hwf hca hra
                have hj02 := (readBack_mono_all m).1 h2 hA aA j0 hx2 hj0A
                have hjsA := (readBack_mono_all m).2.1 hA h rest js0 hxA hrr
                have hjs2 := ihL hA rest h2 rest1 js0 hwfA hcr hjsA
                rw [readBackList, hj02, hjs2]
                exact hr'
    · intro h fs h1 fs1 fjs hwf hcf hr
      cases fs with
      | nil =>
        have hcf' : some (h, ([] : List (String × Nat))) = some (h1, fs1) := hcf
        injection hcf' with heq
        have ha1 := congrArg Prod.snd heq
        subst ha1
        have hr' : some ([] : List (String × Json)) = some fjs := hr
        injection hr' with hjs
      | cons f rest =>
        obtain ⟨k, a⟩ := f
        rw [copyFields] at hcf
        rw [readBackFields] at hr
        cases hca : copyVal m h a with
        | none => rw [hca] at hcf; cases hcf
        | some p =>
          obtain ⟨hA, aA⟩ := p
          rw [hca] at hcf
          have hcf' : (match copyFields m hA rest with
              | some (h2, rest1) => some (h2, (k, aA) :: rest1)
              | none => none) = some (h1, fs1) := hcf
          cases hcr : copyFields m hA rest with
          | none => rw [hcr] at hcf'; cases hcf'
          | some q =>
            obtain ⟨h2, rest1⟩ := q
            rw [hcr] at hcf'
            injection hcf' with heq
            have hh1 := congrArg Prod.fst heq
            have ha1 := congrArg Prod.snd heq
            subst hh1
            subst ha1
            cases hra : readBack m h a with
            | none => rw [hra] at hr; cases hr
            | some j0 =>
              cases hrr : readBackFields m h rest with
              | none => rw [hra, hrr] at hr; cases hr
              | some js0 =>
                rw [hra, hrr] at hr
                have hr' : some ((k, j0) :: js0) = some fjs := hr
                obtain ⟨presA, hwfA, hnA, -, -⟩ :=
                  (copy_spec_all m).1 h a hA aA hwf hca
                obtain ⟨presR, hwfR, hnR⟩ :=
                  (copy_spec_all m).2.2 hA rest h2 rest1 hwfA hcr
                have hxA : HeapExtends hA h := heapExtends_of_pres hwf presA
                have hx2 : HeapExtends h2 hA := heapExtends_of_pres hwfA presR
                have hj0A := ihV h a hA aA j0 hwf hca hra
                have hj02 := (readBack_mono_all m).1 h2 hA aA j0 hx2 hj0A
                have hjsA := (readBack_mono_all m).2.2 hA h rest js0 hxA hrr
                have hjs2 := ihF hA rest h2 rest1 js0 hwfA hcr hjsA
                rw [readBackFields, hj02, hjs2]
                exact hr'

/-- Claim C5: getHistory returns a deep copy of the store that is
    structurally equal but independently mutable.  For a well-formed heap
    whose store root reads back as the tree j: (1) the copy reads back as
    the same tree j (structural equality); (2) the root of the copy is a
    fresh address, and (3) every cell below the old next address — in
    particular every cell of the store — is untouched, so the copy occupies
    only fresh addresses; (4) mutating any fresh address (hence any part of
    the returned copy) leaves the store reading back as the unchanged tree
    j, so subsequent getHistory results are unaffected. -/
theorem getHistory_deep_copy (fuel : Nat) (h h1 : Heap) (root root1 : Nat)
    (j : Json) (hwf : hwfb h = true)
    (hcopy : getHistoryHeap fuel h root = some (h1, root1))
    (hread : readBack fuel h root = some j) :
    readBack fuel h1 root1 = some j ∧
    h.next ≤ root1 ∧
    (∀ b, b < h.next → hlookup h1 b = hlookup h b) ∧
    (∀ b v, h.next ≤ b → readBack fuel (hupdate h1 b v) root = some j) := by
  obtain ⟨pres, hwf1, hnext, hroot1, hroot2⟩ :=
    (copy_spec_all fuel).1 h root h1 root1 hwf hcopy
  refine ⟨(copy_correct_all fuel).1 h root h1 root1 j hwf hcopy hread,
    hroot1, pres, ?_⟩
  intro b v hb
  have hx : HeapExtends (hupdate h1 b v) h := by
    intro a w hl
    have hlt := hlookup_some_lt hwf hl
    rw [hlookup_hupdate_ne v (by omega : a ≠ b), pres a hlt]
    exact hl
  exact (readBack_mono_all fuel).1 _ h root j hx hread

/-- Concrete store heap for the C5 witness: address 0 holds the object
    { meals: [], plans: [] } with the two empty arrays at addresses 1, 2. -/
def sampleStoreHeap : Heap :=
  { cells := [(0, .hobj [("meals", 1), ("plans", 2)]), (1, .harr []), (2, .harr [])]
    next := 3 }

/-- Witness for C5 at the concrete store: the deep copy lands at the fresh
    address 5 and reads back as the same tree as the store root. -/
theorem getHistory_deep_copy_witness :
    readBack 4
      { cells := [(5, .hobj [("meals", 3), ("plans", 4)]), (4, .harr []),
                  (3, .harr []), (0, .hobj [("meals", 1), ("plans", 2)]),
                  (1, .harr []), (2, .harr [])]
        next := 6 } 5 =
      some (.obj [("meals", .arr []), ("plans", .arr [])]) :=
  (getHistory_deep_copy 4 sampleStoreHeap
    { cells := [(5, .hobj [("meals", 3), ("plans", 4)]), (4, .harr []),
                (3, .harr []), (0, .hobj [("meals", 1), ("plans", 2)]),
                (1, .harr []), (2, .harr [])]
      next := 6 } 0 5 (.obj [("meals", .arr []), ("plans", .arr [])])
    (by decide) rfl rfl).1
